import Mathlib

/-!
# hann: the Euclidean distance of `core/distance`

A shallow embedding of `core/distance/euclidian_generic.go` and
`core/distance/euclidian_amd64.go`.

Reading of the arithmetic.  A Go `float32`/`float64` is read as an element of
`Fl ℚ`: a finite value is the rational number it denotes and finite arithmetic is
exact (no rounding, no overflow), while the three special values `+Inf`, `-Inf`
and `NaN` follow IEEE-754.  `math.Sqrt` yields a real number, so the `float64`
that the functions return is an element of `Fl ℝ`.

Reading of the control flow.  A Go slice is a `List`; `s[i]` is bounds checked
and panics when `i` is out of range; the assembly kernel reads raw memory through
the pointers it is given, and a read past the end of a slice is an outcome of its
own.
-/

namespace Hann

/-! ## Floating-point values -/

/-- A floating-point value over the number type `K`: finite, or one of the
IEEE-754 special values. -/
inductive Fl (K : Type) where
  | fin (x : K)
  | pinf
  | ninf
  | nan
deriving DecidableEq

/-- Go `float32`, read exactly. -/
abbrev F32 := Fl ℚ

/-- Go `float64`, read exactly. -/
abbrev F64 := Fl ℚ

namespace Fl

/-- Unary minus. -/
def neg : Fl ℚ → Fl ℚ
  | fin x => fin (-x)
  | pinf => ninf
  | ninf => pinf
  | nan => nan

/-- IEEE-754 addition, exact on finite values. -/
def add : Fl ℚ → Fl ℚ → Fl ℚ
  | nan, _ => nan
  | _, nan => nan
  | pinf, ninf => nan
  | ninf, pinf => nan
  | pinf, _ => pinf
  | _, pinf => pinf
  | ninf, _ => ninf
  | _, ninf => ninf
  | fin x, fin y => fin (x + y)

/-- The product of an infinity of sign `pos` with a finite `x`. -/
def infTimes (pos : Bool) (x : ℚ) : Fl ℚ :=
  if 0 < x then (if pos then pinf else ninf)
  else if x < 0 then (if pos then ninf else pinf)
  else nan

/-- IEEE-754 multiplication, exact on finite values. -/
def mul : Fl ℚ → Fl ℚ → Fl ℚ
  | nan, _ => nan
  | _, nan => nan
  | fin x, fin y => fin (x * y)
  | fin x, pinf => infTimes true x
  | fin x, ninf => infTimes false x
  | pinf, fin y => infTimes true y
  | ninf, fin y => infTimes false y
  | pinf, pinf => pinf
  | pinf, ninf => ninf
  | ninf, pinf => ninf
  | ninf, ninf => pinf

instance : Zero (Fl ℚ) := ⟨fin 0⟩
instance : Add (Fl ℚ) := ⟨add⟩
instance : Neg (Fl ℚ) := ⟨neg⟩
instance : Sub (Fl ℚ) := ⟨fun x y => add x (neg y)⟩
instance : Mul (Fl ℚ) := ⟨mul⟩

/-- Addition with `0` as its unit is a commutative monoid, special values
included: a sum is `NaN` when a term is `NaN` or both infinities occur, else the
infinity that occurs, else the finite sum. -/
instance : AddCommMonoid (Fl ℚ) where
  nsmul := nsmulRec
  add_assoc := by
    intro a b c
    show add (add a b) c = add a (add b c)
    cases a <;> cases b <;> cases c <;> simp [add, add_assoc]
  zero_add := by
    intro a
    show add (fin 0) a = a
    cases a <;> simp [add]
  add_zero := by
    intro a
    show add a (fin 0) = a
    cases a <;> simp [add]
  add_comm := by
    intro a b
    show add a b = add b a
    cases a <;> cases b <;> simp [add, add_comm]

/-- Go `math.Sqrt`: `Sqrt(+Inf) = +Inf`, `Sqrt(x < 0) = NaN`, `Sqrt(NaN) = NaN`. -/
noncomputable def sqrt : Fl ℚ → Fl ℝ
  | fin x => if x < 0 then nan else fin (Real.sqrt (x : ℝ))
  | pinf => pinf
  | ninf => nan
  | nan => nan

end Fl

/-- Go conversion `float64(x)` of a `float32`: exact. -/
def float64 (x : F32) : F64 := x

/-! ## Outcomes of a call -/

/-- What a call can do: return a value, stop with Go's runtime panic
"index out of range", or (inside the assembly kernel only) read memory past the
end of a slice. -/
inductive Outcome (α : Type) where
  | value (v : α)
  | indexPanic
  | wildRead
deriving DecidableEq

namespace Outcome

/-- Sequencing: the first outcome that is not a value stops the computation. -/
def bind {α β : Type} : Outcome α → (α → Outcome β) → Outcome β
  | value v, f => f v
  | indexPanic, _ => indexPanic
  | wildRead, _ => wildRead

instance : Monad Outcome where
  pure := value
  bind := bind

end Outcome

open Outcome

/-- Go `s[i]` on a slice: bounds checked. -/
def idx {α : Type} (s : List α) (i : Nat) : Outcome α :=
  match s[i]? with
  | some x => value x
  | none => indexPanic

/-- Go `for i := lo; ...; i++ { body }` run for `n` more iterations from `i`. -/
def forFrom {σ : Type} (body : Nat → σ → Outcome σ) : Nat → Nat → σ → Outcome σ
  | _, 0, s => value s
  | i, n + 1, s => body i s >>= forFrom body (i + 1) n

/-- Go `for i := lo; i < hi; i++ { body }`, the body not assigning to `i`. -/
def forRange {σ : Type} (lo hi : Nat) (body : Nat → σ → Outcome σ) (init : σ) : Outcome σ :=
  forFrom body lo (hi - lo) init

/-! ## euclidian_generic.go -/

/-- The body of the loop of `EuclideanGeneric`:
`diff := a[i] - b[i]; sum += diff * diff`. -/
def genericBody (a b : List F32) (i : Nat) (sum : F32) : Outcome F32 := do
  let x ← idx a i
  let y ← idx b i
  let diff := x - y
  pure (sum + diff * diff)

/-- `EuclideanGeneric` up to its last line: `var sum float32; for i := range a {...}`. -/
def EuclideanGenericSum (a b : List F32) : Outcome F32 :=
  forRange 0 a.length (genericBody a b) 0

/-- `EuclideanGeneric(a, b)`: `return math.Sqrt(float64(sum))`. -/
noncomputable def EuclideanGeneric (a b : List F32) : Outcome (Fl ℝ) := do
  let sum ← EuclideanGenericSum a b
  pure (Fl.sqrt (float64 sum))

/-! ## euclidian_amd64.go -/

/-- The assembly kernel `euclideanAVX2(aptr, bptr, l, result)`: from the memory
at the two pointers and the block count it fills the eight lanes of
`partialResult`. -/
abbrev Kernel := List F32 → List F32 → Nat → Outcome (Fin 8 → F32)

/-- An unaligned load of eight consecutive `float32` at offset `off`. -/
def load8 (s : List F32) (off : Nat) : Outcome (Fin 8 → F32) :=
  if off + 8 ≤ s.length then value (fun j => s.getD (off + j.val) 0) else wildRead

/-- Modelled from the spec: one iteration of the assembly kernel, which
"processes 8 elements per iteration and accumulates 8 partial lane sums": block
`i` of both vectors is loaded and each lane adds its squared difference. -/
def kernelBody (a b : List F32) (i : Nat) (acc : Fin 8 → F32) : Outcome (Fin 8 → F32) := do
  let va ← load8 a (8 * i)
  let vb ← load8 b (8 * i)
  pure (fun j => acc j + (va j - vb j) * (va j - vb j))

/-- Modelled from the spec: the assembly kernel `euclideanAVX2`, whose source
(`euclidian_amd64.s`) is not among the files: `l` iterations over the lanes,
which start at zero. -/
def euclideanAVX2 : Kernel := fun a b l =>
  forRange 0 l (kernelBody a b) (fun _ => 0)

/-- The body of the horizontal reduction: `result += float64(partialResult[i])`. -/
def laneBody (partialResult : Fin 8 → F32) (i : Nat) (result : F64) : Outcome F64 :=
  if h : i < 8 then pure (result + float64 (partialResult ⟨i, h⟩)) else indexPanic

/-- The body of the tail loop:
`diff := float64(a[i] - b[i]); result += diff * diff`. -/
def tailBody (a b : List F32) (i : Nat) (result : F64) : Outcome F64 := do
  let x ← idx a i
  let y ← idx b i
  let diff := float64 (x - y)
  pure (result + diff * diff)

/-- The `if l > 0 { ... }` block of `Euclidean`: the value of `result` after it. -/
def kernelPart (kernel : Kernel) (a b : List F32) (l : Nat) : Outcome F64 :=
  if l > 0 then do
    let _ ← idx a 0
    let _ ← idx b 0
    let partialResult ← kernel a b l
    forRange 0 8 (laneBody partialResult) 0
  else pure 0

/-- The AVX2 branch of `Euclidean` up to its last line. -/
def EuclideanAVX2Sum (kernel : Kernel) (a b : List F32) : Outcome F64 := do
  let l := a.length / 8
  let result ← kernelPart kernel a b l
  forRange (l * 8) a.length (tailBody a b) result

/-- `Euclidean(a, b)`, with the kernel and `cpu.X86.HasAVX2` as parameters. -/
noncomputable def Euclidean (kernel : Kernel) (hasAVX2 : Bool) (a b : List F32) :
    Outcome (Fl ℝ) :=
  if hasAVX2 then do
    let result ← EuclideanAVX2Sum kernel a b
    pure (Fl.sqrt result)
  else EuclideanGeneric a b

/-! ## Reference quantities -/

/-- The term of index `i` of the distance: `(a[i] - b[i])^2`. -/
def sqAt (a b : List F32) (i : Nat) : F32 :=
  (a.getD i 0 - b.getD i 0) * (a.getD i 0 - b.getD i 0)

/-- The assumption on the kernel: given `l` whole blocks inside both slices, it
writes into lane `j` the sum over the blocks `i < l` of `(a[8i+j] - b[8i+j])^2`. -/
def KernelSpec (k : Kernel) : Prop :=
  ∀ (a b : List F32) (l : Nat), 8 * l ≤ a.length → 8 * l ≤ b.length →
    k a b l = value (fun j => ∑ i in Finset.range l, sqAt a b (8 * i + j.val))

/-- The sum of the squared differences of two vectors, accumulated left to right
from `0` over the pairs of elements. -/
def sumSqDiff (a b : List F32) : F32 :=
  (List.zipWith (fun x y => (x - y) * (x - y)) a b).foldl (fun acc t => acc + t) 0

/-- The test helper `almostEqual(a, b, epsilon)`: `math.Abs(a-b) < epsilon`. -/
def almostEqual (a b epsilon : ℝ) : Prop := |a - b| < epsilon

/-- A returned outcome is a finite value within `epsilon` of `want`. -/
def returnsNear (o : Outcome (Fl ℝ)) (want epsilon : ℝ) : Prop :=
  ∃ r : ℝ, o = value (Fl.fin r) ∧ almostEqual r want epsilon

/-- Test case "Opposite Order", vector `a`. -/
def oppositeA : List F32 := [Fl.fin 1, Fl.fin 2, Fl.fin 3, Fl.fin 4, Fl.fin 5, Fl.fin 6]

/-- Test case "Opposite Order", vector `b`. -/
def oppositeB : List F32 := [Fl.fin 6, Fl.fin 5, Fl.fin 4, Fl.fin 3, Fl.fin 2, Fl.fin 1]

/-- Test case "Binary Opposites", vector `a`. -/
def binaryA : List F32 := [Fl.fin 1, Fl.fin 0, Fl.fin 0, Fl.fin 1, Fl.fin 0, Fl.fin 1]

/-- Test case "Binary Opposites", vector `b`. -/
def binaryB : List F32 := [Fl.fin 0, Fl.fin 1, Fl.fin 1, Fl.fin 0, Fl.fin 1, Fl.fin 0]

/-! ## Basic facts -/

namespace Fl

theorem zero_eq : (0 : Fl ℚ) = fin 0 := rfl

@[simp] theorem fin_add_fin (x y : ℚ) : (fin x + fin y : Fl ℚ) = fin (x + y) := rfl

@[simp] theorem fin_mul_fin (x y : ℚ) : (fin x * fin y : Fl ℚ) = fin (x * y) := rfl

@[simp] theorem fin_sub_fin (x y : ℚ) : (fin x - fin y : Fl ℚ) = fin (x - y) := by
  show add (fin x) (neg (fin y)) = fin (x - y)
  simp [add, neg, sub_eq_add_neg]

theorem sub_eq (x y : Fl ℚ) : x - y = add x (neg y) := rfl

theorem mul_eq (x y : Fl ℚ) : x * y = mul x y := rfl

end Fl

namespace Outcome

@[simp] theorem value_bind {α β : Type} (v : α) (f : α → Outcome β) :
    (value v >>= f) = f v := rfl

@[simp] theorem indexPanic_bind {α β : Type} (f : α → Outcome β) :
    ((indexPanic : Outcome α) >>= f) = indexPanic := rfl

@[simp] theorem wildRead_bind {α β : Type} (f : α → Outcome β) :
    ((wildRead : Outcome α) >>= f) = wildRead := rfl

@[simp] theorem pure_eq {α : Type} (v : α) : (pure v : Outcome α) = value v := rfl

end Outcome

theorem idx_of_lt {α : Type} (s : List α) (i : Nat) (d : α) (h : i < s.length) :
    idx s i = value (s.getD i d) := by
  simp [idx, List.getD, List.getElem?_eq_getElem h]

theorem idx_of_le {α : Type} (s : List α) (i : Nat) (h : s.length ≤ i) :
    idx s i = indexPanic := by
  simp [idx, List.getElem?_eq_none h]

theorem tailBody_eq_genericBody : tailBody = genericBody := rfl

theorem genericBody_of_lt (a b : List F32) (i : Nat) (acc : F32)
    (ha : i < a.length) (hb : i < b.length) :
    genericBody a b i acc = value (acc + sqAt a b i) := by
  simp [genericBody, idx_of_lt a i 0 ha, idx_of_lt b i 0 hb, sqAt]

/-- The scalar loop over indices inside both slices adds their terms. -/
theorem forFrom_genericBody (a b : List F32) :
    ∀ (n lo : Nat) (acc : F32), lo + n ≤ a.length → lo + n ≤ b.length →
      forFrom (genericBody a b) lo n acc
        = value (acc + ∑ i in Finset.range n, sqAt a b (lo + i)) := by
  intro n
  induction n with
  | zero => intro lo acc _ _; simp [forFrom]
  | succ n ih =>
    intro lo acc ha hb
    rw [forFrom, genericBody_of_lt a b lo acc (by omega) (by omega), value_bind,
      ih (lo + 1) _ (by omega) (by omega), Finset.sum_range_succ', add_assoc]
    congr 2
    rw [add_comm]
    congr 1
    apply Finset.sum_congr rfl
    intro i _
    congr 1
    omega

theorem EuclideanGenericSum_eq (a b : List F32) (h : a.length ≤ b.length) :
    EuclideanGenericSum a b = value (∑ i in Finset.range a.length, sqAt a b i) := by
  have := forFrom_genericBody a b a.length 0 0 (by omega) (by omega)
  simpa [EuclideanGenericSum, forRange] using this

/-- A sum over `8 * l` consecutive indices, split into `l` blocks of eight lanes. -/
theorem sum_blocks (f : Nat → Fl ℚ) (l : Nat) :
    ∑ j : Fin 8, ∑ i in Finset.range l, f (8 * i + j.val)
      = ∑ k in Finset.range (8 * l), f k := by
  rw [Finset.sum_comm]
  induction l with
  | zero => simp
  | succ l ih =>
    rw [Finset.sum_range_succ, ih, Nat.mul_succ, Finset.sum_range_add,
      Fin.sum_univ_eq_sum_range (fun j => f (8 * l + j)) 8]

/-- The horizontal reduction adds the eight lanes. -/
theorem forRange_laneBody (p : Fin 8 → F32) (acc : F64) :
    forRange 0 8 (laneBody p) acc = value (acc + ∑ j : Fin 8, p j) := by
  simp [forRange, forFrom, laneBody, float64, Fin.sum_univ_eight, add_assoc]

/-- With a kernel that meets its assumption, the `if l > 0` block leaves in
`result` the sum of the terms of the first `8 * l` indices. -/
theorem kernelPart_eq (k : Kernel) (hk : KernelSpec k) (a b : List F32) (l : Nat)
    (ha : 8 * l ≤ a.length) (hb : 8 * l ≤ b.length) :
    kernelPart k a b l = value (∑ i in Finset.range (8 * l), sqAt a b i) := by
  unfold kernelPart
  by_cases hl : l > 0
  · rw [if_pos hl, idx_of_lt a 0 0 (by omega), idx_of_lt b 0 0 (by omega)]
    simp only [value_bind]
    rw [hk a b l ha hb]
    simp only [value_bind]
    rw [forRange_laneBody, zero_add, sum_blocks (sqAt a b) l]
  · have : l = 0 := by omega
    subst this
    simp

theorem EuclideanAVX2Sum_eq (k : Kernel) (hk : KernelSpec k) (a b : List F32)
    (h : a.length ≤ b.length) :
    EuclideanAVX2Sum k a b = value (∑ i in Finset.range a.length, sqAt a b i) := by
  have h8 : 8 * (a.length / 8) ≤ a.length := Nat.mul_div_le _ _
  unfold EuclideanAVX2Sum
  simp only []
  rw [kernelPart_eq k hk a b _ h8 (by omega)]
  simp only [value_bind]
  rw [forRange, tailBody_eq_genericBody,
    forFrom_genericBody a b _ _ _ (by omega) (by omega), Nat.mul_comm _ 8,
    ← Finset.sum_range_add]
  congr 3
  omega

/-- With a kernel that meets its assumption, the AVX2 path returns what the
scalar function returns whenever `a` is not the longer vector. -/
theorem Euclidean_eq_generic (k : Kernel) (hk : KernelSpec k) (avx : Bool) (a b : List F32)
    (h : a.length ≤ b.length) : Euclidean k avx a b = EuclideanGeneric a b := by
  cases avx
  · rfl
  · simp [Euclidean, EuclideanGeneric, EuclideanAVX2Sum_eq k hk a b h,
      EuclideanGenericSum_eq a b h, float64]

theorem load8_of_le (s : List F32) (off : Nat) (h : off + 8 ≤ s.length) :
    load8 s off = value (fun j => s.getD (off + j.val) 0) := by
  simp [load8, h]

theorem kernelBody_of_le (a b : List F32) (i : Nat) (acc : Fin 8 → F32)
    (ha : 8 * i + 8 ≤ a.length) (hb : 8 * i + 8 ≤ b.length) :
    kernelBody a b i acc = value (fun j => acc j + sqAt a b (8 * i + j.val)) := by
  simp [kernelBody, load8_of_le a _ ha, load8_of_le b _ hb, sqAt]

theorem forFrom_kernelBody (a b : List F32) :
    ∀ (n lo : Nat) (acc : Fin 8 → F32), 8 * (lo + n) ≤ a.length → 8 * (lo + n) ≤ b.length →
      forFrom (kernelBody a b) lo n acc
        = value (fun j => acc j + ∑ i in Finset.range n, sqAt a b (8 * (lo + i) + j.val)) := by
  intro n
  induction n with
  | zero => intro lo acc _ _; simp [forFrom]
  | succ n ih =>
    intro lo acc ha hb
    rw [forFrom, kernelBody_of_le a b lo acc (by omega) (by omega), value_bind,
      ih (lo + 1) _ (by omega) (by omega)]
    congr 1
    funext j
    rw [Finset.sum_range_succ', add_assoc]
    congr 1
    rw [add_comm]
    congr 1
    apply Finset.sum_congr rfl
    intro i _
    congr 2
    omega

/-- The modelled kernel meets the assumption made on the kernel. -/
theorem euclideanAVX2_spec : KernelSpec euclideanAVX2 := by
  intro a b l ha hb
  have := forFrom_kernelBody a b l 0 (fun _ => 0) (by omega) (by omega)
  simpa [euclideanAVX2, forRange] using this

theorem foldl_add_eq (l : List (Fl ℚ)) (x : Fl ℚ) :
    l.foldl (fun acc t => acc + t) x = x + l.sum := by
  induction l generalizing x with
  | nil => simp
  | cons t l ih => simp [ih, add_assoc]

theorem sqAt_cons (x y : F32) (a b : List F32) (i : Nat) :
    sqAt (x :: a) (y :: b) (i + 1) = sqAt a b i := by
  simp [sqAt]

/-- The indexed sum of the terms is the left-to-right sum over the pairs. -/
theorem sum_sqAt_eq_sumSqDiff (a b : List F32) (h : a.length ≤ b.length) :
    ∑ i in Finset.range a.length, sqAt a b i = sumSqDiff a b := by
  rw [sumSqDiff, foldl_add_eq, zero_add]
  induction a generalizing b with
  | nil => simp
  | cons x a ih =>
    cases b with
    | nil => simp at h
    | cons y b =>
      simp only [List.length_cons, List.zipWith_cons_cons, List.sum_cons]
      rw [Finset.sum_range_succ', add_comm]
      simp only [sqAt_cons]
      rw [ih b (by simpa using h)]
      simp [sqAt]

theorem sumSqDiff_fin (x y : List ℚ) :
    sumSqDiff (x.map Fl.fin) (y.map Fl.fin)
      = Fl.fin (List.zipWith (fun p q => (p - q) ^ 2) x y).sum := by
  rw [sumSqDiff, foldl_add_eq, zero_add]
  induction x generalizing y with
  | nil => simp [Fl.zero_eq]
  | cons p x ih =>
    cases y with
    | nil => simp [Fl.zero_eq]
    | cons q y =>
      simp only [List.map_cons, List.zipWith_cons_cons, List.sum_cons, ih, Fl.fin_sub_fin,
        Fl.fin_mul_fin, Fl.fin_add_fin, sq]

theorem EuclideanGeneric_eq (a b : List F32) (h : a.length ≤ b.length) :
    EuclideanGeneric a b = value (Fl.sqrt (sumSqDiff a b)) := by
  simp [EuclideanGeneric, EuclideanGenericSum_eq a b h, sum_sqAt_eq_sumSqDiff a b h, float64]

/-- When `a` is the longer vector the scalar loop stops at index `len(b)`. -/
theorem forFrom_genericBody_panic (a b : List F32) :
    ∀ (n lo : Nat) (acc : F32), lo ≤ b.length → b.length < lo + n → lo + n ≤ a.length →
      forFrom (genericBody a b) lo n acc = indexPanic := by
  intro n
  induction n with
  | zero => intro lo acc h1 h2 _; omega
  | succ n ih =>
    intro lo acc h1 h2 h3
    by_cases hlo : lo < b.length
    · rw [forFrom, genericBody_of_lt a b lo acc (by omega) hlo, value_bind]
      exact ih (lo + 1) _ (by omega) (by omega) (by omega)
    · rw [forFrom]
      simp [genericBody, idx_of_lt a lo 0 (by omega), idx_of_le b lo (by omega)]

theorem EuclideanGenericSum_panic (a b : List F32) (h : b.length < a.length) :
    EuclideanGenericSum a b = indexPanic := by
  simpa [EuclideanGenericSum, forRange] using
    forFrom_genericBody_panic a b a.length 0 0 (by omega) (by omega) (by omega)

theorem EuclideanGeneric_panic (a b : List F32) (h : b.length < a.length) :
    EuclideanGeneric a b = indexPanic := by
  simp [EuclideanGeneric, EuclideanGenericSum_panic a b h]

theorem sumSqDiff_take (a b : List F32) :
    sumSqDiff a b
      = sumSqDiff (a.take (min a.length b.length)) (b.take (min a.length b.length)) := by
  rw [sumSqDiff, sumSqDiff, ← List.zipWith_eq_zipWith_take_min]

/-- For fewer than eight elements the AVX2 path is the scalar loop, whatever the
kernel. -/
theorem EuclideanAVX2Sum_short (k : Kernel) (a b : List F32) (h : a.length < 8) :
    EuclideanAVX2Sum k a b = EuclideanGenericSum a b := by
  have hl : a.length / 8 = 0 := Nat.div_eq_of_lt h
  simp [EuclideanAVX2Sum, kernelPart, hl, EuclideanGenericSum, tailBody_eq_genericBody]

theorem Euclidean_short (k : Kernel) (avx : Bool) (a b : List F32) (h : a.length < 8) :
    Euclidean k avx a b = EuclideanGeneric a b := by
  cases avx
  · rfl
  · simp [Euclidean, EuclideanGeneric, EuclideanAVX2Sum_short k a b h, float64]

theorem sum_sq_self (x : List ℚ) : (List.zipWith (fun p q => (p - q) ^ 2) x x).sum = 0 := by
  induction x with
  | nil => simp
  | cons p x ih => simp [ih]

theorem EuclideanGeneric_self (x : List ℚ) :
    EuclideanGeneric (x.map Fl.fin) (x.map Fl.fin) = value (Fl.fin 0) := by
  rw [EuclideanGeneric_eq _ _ (le_refl _), sumSqDiff_fin, sum_sq_self]
  simp [Fl.sqrt]

theorem oppositeSum : EuclideanGenericSum oppositeA oppositeB = value (Fl.fin 70) := by
  simp [EuclideanGenericSum, oppositeA, oppositeB, forRange, forFrom, genericBody, idx,
    Fl.zero_eq]
  norm_num

theorem binarySum : EuclideanGenericSum binaryA binaryB = value (Fl.fin 6) := by
  simp [EuclideanGenericSum, binaryA, binaryB, forRange, forFrom, genericBody, idx,
    Fl.zero_eq]
  norm_num

theorem returnsNear_self (r : ℝ) : returnsNear (value (Fl.fin r)) r 1e-6 :=
  ⟨r, rfl, by simp only [almostEqual, sub_self, abs_zero]; norm_num⟩

/-! ## The claims -/

/-- C2: with a kernel that writes into lane `j` the sum over the blocks `i < l` of
`(a[8i+j] - b[8i+j])^2`, the AVX2 path of `Euclidean` returns on equal-length
vectors exactly what `EuclideanGeneric` returns. -/
theorem Euclidean_avx2_eq_EuclideanGeneric (k : Kernel) (hk : KernelSpec k)
    (a b : List F32) (h : a.length = b.length) :
    Euclidean k true a b = EuclideanGeneric a b :=
  Euclidean_eq_generic k hk true a b (le_of_eq h)

/-- C2 at two vectors of nine elements (one block and a tail of one), with the
modelled kernel. -/
theorem Euclidean_avx2_eq_EuclideanGeneric_witness :
    KernelSpec euclideanAVX2 ∧
    (List.replicate 9 (Fl.fin 2) : List F32).length = (List.replicate 9 (Fl.fin 5)).length ∧
    Euclidean euclideanAVX2 true (List.replicate 9 (Fl.fin 2)) (List.replicate 9 (Fl.fin 5))
      = EuclideanGeneric (List.replicate 9 (Fl.fin 2)) (List.replicate 9 (Fl.fin 5)) :=
  ⟨euclideanAVX2_spec, rfl,
    Euclidean_avx2_eq_EuclideanGeneric euclideanAVX2 euclideanAVX2_spec _ _ rfl⟩

/-- On the AVX2 path with the modelled kernel, `a` of eight elements and `b` of
one: the kernel loads eight elements through `&b[0]`, past the end of `b`. -/
theorem avx2_reads_past_shorter_b :
    Euclidean euclideanAVX2 true (List.replicate 8 (Fl.fin 1)) [Fl.fin 1] = wildRead := by
  simp [Euclidean, EuclideanAVX2Sum, kernelPart, idx, euclideanAVX2, forRange, forFrom,
    kernelBody, load8]

/-- C4 refuted: for `a = [+Inf]` the difference `a[0] - a[0]` is `NaN`, and
`EuclideanGeneric(a, a)` and `Euclidean(a, a)` on both paths return `NaN`, not `0`. -/
theorem self_distance_of_infinity :
    EuclideanGeneric [Fl.pinf] [Fl.pinf] = value Fl.nan ∧
    Euclidean euclideanAVX2 false [Fl.pinf] [Fl.pinf] = value Fl.nan ∧
    Euclidean euclideanAVX2 true [Fl.pinf] [Fl.pinf] = value Fl.nan ∧
    (value Fl.nan : Outcome (Fl ℝ)) ≠ value (Fl.fin 0) := by
  have h : EuclideanGeneric [Fl.pinf] [Fl.pinf] = value Fl.nan := by
    simp [EuclideanGeneric, EuclideanGenericSum, forRange, forFrom, genericBody, idx, float64,
      Fl.sub_eq, Fl.mul_eq, Fl.add, Fl.neg, Fl.mul, Fl.sqrt, Fl.zero_eq]
    rfl
  refine ⟨h, h, ?_, by simp⟩
  rw [Euclidean_short _ _ _ _ (by simp), h]

/-- C4 as amended: for every vector `a` whose elements are all finite (no `NaN`,
no infinity), of any length, `EuclideanGeneric(a, a)` and `Euclidean(a, a)` on
either path return `0`. -/
theorem Euclidean_self_finite (k : Kernel) (hk : KernelSpec k) (avx : Bool) (x : List ℚ) :
    EuclideanGeneric (x.map Fl.fin) (x.map Fl.fin) = value (Fl.fin 0) ∧
    Euclidean k avx (x.map Fl.fin) (x.map Fl.fin) = value (Fl.fin 0) := by
  refine ⟨EuclideanGeneric_self x, ?_⟩
  rw [Euclidean_eq_generic k hk avx _ _ (le_refl _), EuclideanGeneric_self x]

/-- C4 as amended, at the test vector `[1, 2, 3, 4, 5, 6]` repeated to twelve
elements on the AVX2 path. -/
theorem Euclidean_self_finite_witness :
    KernelSpec euclideanAVX2 ∧
    Euclidean euclideanAVX2 true
        (([1, 2, 3, 4, 5, 6, 1, 2, 3, 4, 5, 6] : List ℚ).map Fl.fin)
        (([1, 2, 3, 4, 5, 6, 1, 2, 3, 4, 5, 6] : List ℚ).map Fl.fin)
      = value (Fl.fin 0) :=
  ⟨euclideanAVX2_spec,
    (Euclidean_self_finite euclideanAVX2 euclideanAVX2_spec true
      [1, 2, 3, 4, 5, 6, 1, 2, 3, 4, 5, 6]).2⟩

/-- C6: when `cpu.X86.HasAVX2` is false, `Euclidean(a, b)` is `EuclideanGeneric(a, b)`
for every input and every kernel: the same value or the same panic, and no outcome
of its own. -/
theorem Euclidean_without_avx2 (k : Kernel) (a b : List F32) :
    Euclidean k false a b = EuclideanGeneric a b := by
  simp [Euclidean]

/-- C7: on the two worked examples the sum of the squared differences is exactly
`70`, respectively `6`, on the scalar path and on the AVX2 path (six elements: the
kernel is not called), and `EuclideanGeneric` and `Euclidean` on either path
return `sqrt 70`, respectively `sqrt 6`, hence a value within `1e-6` of it. -/
theorem worked_examples (k : Kernel) (avx : Bool) :
    (EuclideanGenericSum oppositeA oppositeB = value (Fl.fin 70) ∧
      EuclideanAVX2Sum k oppositeA oppositeB = value (Fl.fin 70) ∧
      EuclideanGeneric oppositeA oppositeB = value (Fl.fin (Real.sqrt 70)) ∧
      Euclidean k avx oppositeA oppositeB = value (Fl.fin (Real.sqrt 70)) ∧
      returnsNear (EuclideanGeneric oppositeA oppositeB) (Real.sqrt 70) 1e-6 ∧
      returnsNear (Euclidean k avx oppositeA oppositeB) (Real.sqrt 70) 1e-6) ∧
    (EuclideanGenericSum binaryA binaryB = value (Fl.fin 6) ∧
      EuclideanAVX2Sum k binaryA binaryB = value (Fl.fin 6) ∧
      EuclideanGeneric binaryA binaryB = value (Fl.fin (Real.sqrt 6)) ∧
      Euclidean k avx binaryA binaryB = value (Fl.fin (Real.sqrt 6)) ∧
      returnsNear (EuclideanGeneric binaryA binaryB) (Real.sqrt 6) 1e-6 ∧
      returnsNear (Euclidean k avx binaryA binaryB) (Real.sqrt 6) 1e-6) := by
  have ha : oppositeA.length < 8 := by decide
  have hb : binaryA.length < 8 := by decide
  have g1 : EuclideanGeneric oppositeA oppositeB = value (Fl.fin (Real.sqrt 70)) := by
    simp [EuclideanGeneric, oppositeSum, float64, Fl.sqrt]
  have g2 : EuclideanGeneric binaryA binaryB = value (Fl.fin (Real.sqrt 6)) := by
    simp [EuclideanGeneric, binarySum, float64, Fl.sqrt]
  have e1 := Euclidean_short k avx oppositeA oppositeB ha
  have e2 := Euclidean_short k avx binaryA binaryB hb
  refine ⟨⟨oppositeSum, ?_, g1, ?_, ?_, ?_⟩, ⟨binarySum, ?_, g2, ?_, ?_, ?_⟩⟩
  · rw [EuclideanAVX2Sum_short k _ _ ha, oppositeSum]
  · rw [e1, g1]
  · rw [g1]; exact returnsNear_self _
  · rw [e1, g1]; exact returnsNear_self _
  · rw [EuclideanAVX2Sum_short k _ _ hb, binarySum]
  · rw [e2, g2]
  · rw [g2]; exact returnsNear_self _
  · rw [e2, g2]; exact returnsNear_self _

/-- C10 refuted: with `a = [3, 4]` and `b = [3]` the longer vector is `a`, and
`EuclideanGeneric(a, b)` does not return the distance over the first element: it
panics at `b[1]`. -/
theorem EuclideanGeneric_longer_a_panics :
    EuclideanGeneric [Fl.fin 3, Fl.fin 4] [Fl.fin 3] = indexPanic ∧
    EuclideanGeneric [Fl.fin 3, Fl.fin 4] [Fl.fin 3]
      ≠ value (Fl.sqrt (sumSqDiff (List.take 1 [Fl.fin 3, Fl.fin 4]) (List.take 1 [Fl.fin 3]))) := by
  have h : EuclideanGeneric [Fl.fin 3, Fl.fin 4] [Fl.fin 3] = indexPanic :=
    EuclideanGeneric_panic _ _ (by simp)
  refine ⟨h, ?_⟩
  rw [h]
  simp

/-- C10 as amended: `EuclideanGeneric` relies on the bounds of `a` alone.  When
`len(a) ≤ len(b)` it returns the distance over the first `min(len(a), len(b))`
elements, silently ignoring the rest of `b`; when `a` is the longer vector it
does not truncate `a`: it stops with the index-out-of-range panic. -/
theorem EuclideanGeneric_bounds_of_a (a b : List F32) :
    EuclideanGeneric a b
      = (if a.length ≤ b.length then
          value (Fl.sqrt (sumSqDiff (a.take (min a.length b.length))
            (b.take (min a.length b.length))))
         else indexPanic) := by
  by_cases h : a.length ≤ b.length
  · rw [if_pos h, EuclideanGeneric_eq a b h, ← sumSqDiff_take]
  · rw [if_neg h]
    exact EuclideanGeneric_panic a b (by omega)

end Hann
